import Mathlib

/-!
Verification of the qcheck property-based testing engine against its
natural-language specification.

The TypeScript sources (src/random.ts, src/arbitrary.ts, src/qcheck.ts) are
shallowly embedded below.  JavaScript 32-bit integers are modelled as natural
numbers below 2^32 (with explicit masking where overflow matters), JavaScript
numbers as exact rationals.  The IEEE-double rounding of JavaScript arithmetic
is abstracted to exact rational arithmetic; every concrete integer trace
settled here was checked to be invariant under that abstraction, and the
embedding reproduces, word for word and value for value, the pseudo-random
sequence and the full trial/shrink trace recorded in the repository's own
test suite (test/qcheck.test.ts); see the validation theorems below.

For kernel-computable concrete evaluation, the two places where the engine
truncates a rational to an integer (Arbitrary.int32.generate and currentSize)
also get an integer-level twin, and a theorem proves the twin equal to the
source-shaped rational definition on the inputs the engine uses.

The constant UInt32.Max comes from the external package wiinuk-extensions and
is modelled as 4294967295, the largest unsigned 32-bit value, matching the
inclusive-bound convention of the sibling constants (the repository's tests
use Int32.Max = 2^31 - 1 and CodePoint.Max = 0x10FFFF as inclusive bounds).
Likewise the CodePoint constants are the standard values (Min 0, AsciiMax
127, Latin1Max 255, Max 0x10FFFF, and the usual ASCII codes).
-/

namespace QCheck

/-! ## The deterministic random source (src/random.ts) -/

/-- Modulus of unsigned 32-bit arithmetic. -/
def m32 : ℕ := 4294967296

/-- The external constant UInt32.Max: the largest unsigned 32-bit value. -/
def uint32Max : ℕ := 4294967295

/-- Reduce modulo 2^32, as JavaScript bitwise results are. -/
def mask32 (n : ℕ) : ℕ := n % m32

/-- JavaScript ToUint32 (the operator seed >>> 0) on an integer. -/
def toUint32 (n : ℤ) : ℕ := (n % (m32 : ℤ)).toNat

/-- JavaScript truncation toward zero (the first step of the operator n | 0)
on an exact rational. -/
def ratTrunc (q : ℚ) : ℤ := if 0 ≤ q then ⌊q⌋ else ⌈q⌉

/-- Second step of JavaScript n | 0: wrap an integer into signed 32-bit. -/
def wrap32 (n : ℤ) : ℤ :=
  let m := n % (m32 : ℤ)
  if m < 2147483648 then m else m - (m32 : ℤ)

/-- JavaScript q | 0 on an exact rational. -/
def jsToInt32 (q : ℚ) : ℤ := wrap32 (ratTrunc q)

/-- The four 32-bit state words of the xorshift source (class Random). -/
structure RandomState where
  x : ℕ
  y : ℕ
  z : ℕ
  w : ℕ
  deriving DecidableEq, Repr

/-- All four state words fit in 32 bits. -/
def RandomState.Wf (s : RandomState) : Prop :=
  s.x < m32 ∧ s.y < m32 ∧ s.z < m32 ∧ s.w < m32

instance (s : RandomState) : Decidable s.Wf := by
  unfold RandomState.Wf; infer_instance

/-- seedOfNow, modelled with the current time as an explicit argument. -/
def seedOfNow (now : ℤ) : ℕ := toUint32 now

/-- The Random constructor: fixed words x, y, z and w = seed >>> 0. -/
def Random.mk (seed : ℤ) : RandomState :=
  ⟨123456789, 362436069, 521288629, toUint32 seed⟩

/-- The Random constructor with its defaulted seed argument: an explicit
seed makes the ambient construction time irrelevant. -/
def Random.mkDefault (seed : Option ℤ) (now : ℤ) : RandomState :=
  Random.mk (seed.getD (seedOfNow now))

/-- Random.nextUInt32: one xorshift step, returning the drawn word and the
next state.  The signed JavaScript intermediates are bit-identical to the
unsigned model used here. -/
def nextUInt32 (s : RandomState) : ℕ × RandomState :=
  let t := Nat.xor s.x (mask32 (s.x <<< 11))
  let w2 := Nat.xor (Nat.xor s.w (s.w >>> 19)) (Nat.xor t (t >>> 8))
  (w2, ⟨s.y, s.z, s.w, w2⟩)

/-- Random.next: the unit draw, nextUInt32() / UInt32.Max. -/
def Random.next (s : RandomState) : ℚ × RandomState :=
  let (u, s') := nextUInt32 s
  (((u : ℕ) : ℚ) / ((uint32Max : ℕ) : ℚ), s')

/-- Random.range: raises when max < min, otherwise returns
lo + next() * (hi - lo) with lo/hi the sorted bounds. -/
def Random.range (s : RandomState) (mn mx : ℚ) :
    Except String (ℚ × RandomState) :=
  if mx < mn then .error "min < max" else
    let lo := min mn mx
    let hi := max mn mx
    let (u, s') := Random.next s
    .ok (lo + u * (hi - lo), s')

/-- The first n draws of nextUInt32 from a state. -/
def nextN (s : RandomState) : ℕ → List ℕ
  | 0 => []
  | n + 1 =>
    let (u, s') := nextUInt32 s
    u :: nextN s' n

/-! ## The generator/shrinker algebra (src/arbitrary.ts) -/

/-- shrinkInteger: for a non-zero n yields n - sign(n), (n/2)|0 and 0.
Int.tdiv is JavaScript (n/2)|0 truncation toward zero. -/
def shrinkInteger (n : ℤ) : List ℤ :=
  if n = 0 then [] else [n - Int.sign n, Int.tdiv n 2, 0]

/-- Arbitrary.int32.generate, source-shaped: r.range(-size, size) | 0, an
exception from range propagating to the caller. -/
def int32Generate (s : RandomState) (size : ℤ) :
    Except String (ℤ × RandomState) :=
  (Random.range s (-(size : ℚ)) (size : ℚ)).map
    (fun p => (jsToInt32 p.1, p.2))

/-- Integer-level twin of int32Generate: trunc(-size + (u/Max)*(2*size))
equals tdiv(-size*Max + u*2*size, Max); proved equal to the source-shaped
definition (for 0 <= size) in int32Generate_eq_int below. -/
def int32GenerateInt (s : RandomState) (size : ℤ) : ℤ × RandomState :=
  let (u, s') := nextUInt32 s
  (wrap32 (Int.tdiv (-size * (uint32Max : ℤ) + (u : ℤ) * (2 * size))
    (uint32Max : ℤ)), s')

/-- Arbitrary.int32.shrink: shrinkInteger(x | 0). -/
def int32Shrink (x : ℤ) : List ℤ := shrinkInteger (wrap32 x)

/-- Arbitrary.CodePoint.category, exactly as in the source: digits fall
into the AsciiWithoutLetterOrNumber branch (Category.AsciiNumber = 2 is
never returned) and both non-ASCII branches return
Category.UnicodeWithoutLatin1 = 5 (Category.Latin1WithoutAscii = 4 is never
returned).  The numbers are the const enum values. -/
def category (c : ℤ) : ℕ :=
  if c ≤ 127 then
    if 97 ≤ c ∧ c ≤ 122 then 0
    else if 65 ≤ c ∧ c ≤ 90 then 1
    else 3
  else if c ≤ 255 then 5
  else 5

/-- The candidate list of Arbitrary.codePoint.shrink: predecessor (clamped
to CodePoint.Min = 0), halved value, space, newline, the characters 0 and a. -/
def codePointChars (c : ℤ) : List ℤ :=
  [max 0 (c - 1), Int.tdiv c 2, 32, 10, 48, 97]

/-- Arbitrary.codePoint.shrink: clamp the input into the code-point range,
then keep only candidates strictly simpler under the source's category
function (smaller category, or same category and smaller value). -/
def codePointShrink (x : ℤ) : List ℤ :=
  let c := max 0 (min 1114111 (wrap32 x))
  (codePointChars c).filter
    (fun c2 => decide (category c2 < category c ∨
      (category c2 = category c ∧ c2 < c)))

/-- Modelled from the spec: the six-way category order the specification
(and the comment above the source's shrink) assigns to code points:
lowercase < uppercase < digit < other-ASCII < non-ASCII-Latin1 <
beyond-Latin1. -/
def specCategory (c : ℤ) : ℕ :=
  if 97 ≤ c ∧ c ≤ 122 then 0
  else if 65 ≤ c ∧ c ≤ 90 then 1
  else if 48 ≤ c ∧ c ≤ 57 then 2
  else if 0 ≤ c ∧ c ≤ 127 then 3
  else if 128 ≤ c ∧ c ≤ 255 then 4
  else 5

/-- One pass of the halving loop of ArrayMinMaxArbitrary.shrink at prefix
length i: the prefix xs.slice(0, i), then for every index j < i the prefix
with element j replaced by one of its own shrinks (xs[j] = prefix[j] for
j < i). -/
def arrayShrinkBlock {α : Type} (shr : α → List α) (xs : List α) (i : ℕ) :
    List (List α) :=
  let xs2 := xs.take i
  xs2 :: xs2.enum.flatMap (fun p => (shr p.2).map (fun x => xs2.set p.1 x))

/-- The sequence of prefix lengths of the halving loop
`for (let i = (xs.length / 2) | 0; minLength <= i; i = (i / 2) | 0)`:
the k-th value of i. -/
def arrayShrinkIdx {α : Type} (xs : List α) : ℕ → ℕ
  | 0 => xs.length / 2
  | k + 1 => arrayShrinkIdx xs k / 2

/-- ArrayMinMaxArbitrary.shrink as a stream of loop passes: the k-th pass
of the halving loop, or none when the generator has stopped before pass k
(empty/short input returns at once; otherwise the loop runs while
minLength <= i).  The produced candidate sequence is the concatenation of
the pass blocks; the generator is finite exactly when some pass is none. -/
def arrayShrinkSeq {α : Type} (shr : α → List α) (minLength : ℕ)
    (xs : List α) (k : ℕ) : Option (List (List α)) :=
  if xs.length = 0 ∨ xs.length ≤ minLength then none
  else if minLength ≤ arrayShrinkIdx xs k then
    some (arrayShrinkBlock shr xs (arrayShrinkIdx xs k))
  else none

/-- JavaScript array indexing at a fractional position, as in
`arbs[r.next() * arbs.length]`: an element only when the index is an
integer within bounds, undefined (none) otherwise. -/
def jsIndex {α : Type} (xs : List α) (q : ℚ) : Option α :=
  if h : q.den = 1 ∧ 0 ≤ q.num ∧ q.num.toNat < xs.length then
    some (xs.get ⟨q.num.toNat, h.2.2⟩)
  else none

/-- One branch of the Sum combinator: the pair [ArbitraryCore, Is] of the
source, with the arbitrary's two capabilities as separate fields. -/
structure SumBranch (α : Type) where
  generate : RandomState → ℤ → Option (α × RandomState)
  shrink : α → List α
  is : α → Bool

/-- Sum.generate: arbs[r.next() * arbs.length][0].generate(r, size).
The branch array is indexed at the unfloored position next() * length;
a fractional index gives undefined and the member access on it throws,
modelled as none. -/
def sumGenerate {α : Type} (branches : List (SumBranch α))
    (s : RandomState) (size : ℤ) : Option (α × RandomState) :=
  let (u, s') := Random.next s
  match jsIndex branches (u * ((branches.length : ℕ) : ℚ)) with
  | some br => br.generate s' size
  | none => none

/-- Sum.shrink: for each branch in order, if its predicate recognizes the
value, yield that branch's shrinks of it. -/
def sumShrink {α : Type} (branches : List (SumBranch α)) (v : α) :
    List α :=
  branches.flatMap (fun br => if br.is v then br.shrink v else [])

/-- Pure (the constant arbitrary): generate returns the value without
consuming randomness, shrink is empty. -/
def pureBranch {α : Type} (v : α) (is : α → Bool) : SumBranch α :=
  ⟨fun s _ => some (v, s), fun _ => [], is⟩

/-- The value type of the scenario sum combinator over the constants
"a" and 42: a string or a number. -/
inductive StrOrNum where
  | str (s : String)
  | num (n : ℤ)
  deriving DecidableEq, Repr

/-- The sum combinator of the scenario: branches pure("a") and pure(42)
with their discriminating predicates. -/
def sumAOr42 : List (SumBranch StrOrNum) :=
  [pureBranch (.str "a") (fun v => match v with | .str _ => true | _ => false),
   pureBranch (.num 42) (fun v => match v with | .num _ => true | _ => false)]

/-- Interface (the record combinator): the sorted field-name list computed
by the constructor (Object.keys(map).sort()). -/
def interfaceKeys {ι : Type} [LinearOrder ι] (ks : List ι) : List ι :=
  ks.insertionSort (· ≤ ·)

/-- Interface.shrink: for each field in sorted key order, the record with
only that field replaced by one of its own shrinks (Object.assign of a
single key is Function.update). -/
def interfaceShrink {ι : Type} {β : ι → Type} [DecidableEq ι]
    (shr : (k : ι) → β k → List (β k)) (keys : List ι)
    (r : (k : ι) → β k) : List ((k : ι) → β k) :=
  keys.flatMap (fun k => (shr k (r k)).map (fun x => Function.update r k x))

/-! ## The trial loop and shrink-search (src/qcheck.ts) -/

/-- The per-evaluation Result of the source (Failure / Success / Exception
classes), with the stringified value; labels are never set by the engine
and are omitted. -/
inductive RunResult (ε : Type) where
  | failure (value : String)
  | success (value : String)
  | exception (error : ε) (value : String)
  deriving DecidableEq, Repr

/-- Whether a Result has type === "Success". -/
def RunResult.isSuccess {ε : Type} : RunResult ε → Bool
  | .success _ => true
  | _ => false

/-- What the user predicate does on a value: throw, return one of the three
Result objects, return the literal false, or return anything else. -/
inductive TestResponse (ε : Type) where
  | throws (error : ε)
  | returnsResult (r : RunResult ε)
  | returnsFalse
  | returnsOther
  deriving DecidableEq, Repr

/-- runTest: evaluate the predicate and classify — a returned Result is
used verbatim, false becomes Failure, a thrown error is caught into
Exception, anything else is Success. -/
def runTest {α ε : Type} (stringify : α → String)
    (test : α → TestResponse ε) (v : α) : RunResult ε :=
  match test v with
  | .throws e => .exception e (stringify v)
  | .returnsResult r => r
  | .returnsFalse => .failure (stringify v)
  | .returnsOther => .success (stringify v)

/-- The terminal report.  The source's TestResult union declares all three
shapes, including TestFailureWithException (constructor exceptionFailure
here); which of them the engine actually constructs is the subject of the
theorems below. -/
inductive TestResult (α ε : Type) where
  | success (seed : ℤ) (testCount : ℤ)
  | failure (seed : ℤ) (testCount : ℤ) (shrinkCount : ℕ)
      (originalFail : α) (minFail : α)
  | exceptionFailure (error : ε) (seed : ℤ) (testCount : ℤ)
      (shrinkCount : ℕ) (originalFail : α) (minFail : α)
  deriving DecidableEq, Repr

/-- Whether a report is the Exception-shaped failure (the shape that
carries the error payload). -/
def TestResult.isExceptionShaped {α ε : Type} : TestResult α ε → Bool
  | .exceptionFailure .. => true
  | _ => false

/-- Outcome of one pass of findLocalMinFail over the shrink sequence of
maxFail: either the whole search is done (break findMin), or the pass hit
a success after at least one failure and the outer loop restarts from the
recorded minFail (continue findMin). -/
inductive ShrinkPassOutcome (α : Type) where
  | done (minFail : α) (shrinkCount : ℕ)
  | restart (minFail : α) (shrinkCount : ℕ)
  deriving DecidableEq, Repr

/-- One pass of findLocalMinFail over a shrink candidate list, carrying
minFail, failCount (failures seen this pass) and the global shrinkCount:
a successful candidate with failCount = 0 ends the search, a successful
candidate after failures restarts from minFail, a failing candidate is
recorded (counts incremented, minFail updated), an exhausted list ends
the search. -/
def shrinkPass {α ε : Type} (runT : α → RunResult ε) :
    List α → α → ℕ → ℕ → ShrinkPassOutcome α
  | [], minFail, _, shrinkCount => .done minFail shrinkCount
  | v :: rest, minFail, failCount, shrinkCount =>
    if (runT v).isSuccess then
      if failCount = 0 then .done minFail shrinkCount
      else .restart minFail shrinkCount
    else shrinkPass runT rest v (failCount + 1) (shrinkCount + 1)

/-- findLocalMinFail: the outer findMin loop.  The source's while(true) is
given explicit fuel (none models a run that never terminates); each
iteration runs one pass over shrink(maxFail), and a restart continues
with maxFail = minFail and failCount reset to 0.  The report is always
built by TestResult.testFailure (the plain Failure shape). -/
def findLocalMinFail {α ε : Type} (runT : α → RunResult ε)
    (shrink : α → List α) (seed testCount : ℤ) (originalFail : α) :
    ℕ → α → α → ℕ → Option (TestResult α ε)
  | 0, _, _, _ => none
  | fuel + 1, maxFail, minFail, shrinkCount =>
    match shrinkPass runT (shrink maxFail) minFail 0 shrinkCount with
    | .done mf sc => some (.failure seed testCount sc originalFail mf)
    | .restart mf sc =>
      findLocalMinFail runT shrink seed testCount originalFail fuel mf mf sc

/-- The trial configuration (Config of the source, seed made mandatory
since the defaulting is modelled at Random construction). -/
structure Config where
  seed : ℤ
  maxTest : ℤ
  startSize : ℤ
  endSize : ℤ
  deriving DecidableEq, Repr

/-- currentSize, source-shaped:
startSize + (endSize - startSize) * ((index + 1) / maxTest) | 0. -/
def currentSizeQ (startSize endSize maxTest index : ℤ) : ℤ :=
  jsToInt32 ((startSize : ℚ) +
    ((endSize : ℚ) - (startSize : ℚ)) *
      (((index : ℚ) + 1) / (maxTest : ℚ)))

/-- Integer-level twin of currentSizeQ; proved equal to it for
0 < maxTest in currentSize_eq_int below. -/
def currentSizeInt (startSize endSize maxTest index : ℤ) : ℤ :=
  wrap32 (Int.tdiv (startSize * maxTest + (endSize - startSize) * (index + 1))
    maxTest)

/-- check's clamped lower size: minSize = Math.max(1, startSize). -/
def checkMinSize (cfg : Config) : ℤ := max 1 cfg.startSize

/-- check's clamped upper size: maxSize = Math.max(endSize, minSize). -/
def checkMaxSize (cfg : Config) : ℤ := max cfg.endSize (checkMinSize cfg)

/-- The size passed to generate at a given trial index:
currentSize(minSize, maxSize, maxTest, index). -/
def trialSize (cfg : Config) (index : ℤ) : ℤ :=
  currentSizeInt (checkMinSize cfg) (checkMaxSize cfg) cfg.maxTest index

/-- The trial loop of check, from a given trial index with the given
remaining trial budget.  Threads the random state, logs each drawn value
(the runner.onTest trace, with the actual value in place of its rendered
string), and on the first non-Success evaluation enters findLocalMinFail
with testCount + 1.  A none from generate models an exception escaping
generation; a none overall also models a non-terminating shrink-search. -/
def checkFrom {α ε : Type} (generate : RandomState → ℤ → Option (α × RandomState))
    (shrink : α → List α) (stringify : α → String)
    (test : α → TestResponse ε) (cfg : Config) (fuel : ℕ) :
    ℕ → ℕ → RandomState → List α → Option (List α × TestResult α ε)
  | 0, _, _, log => some (log.reverse, .success cfg.seed cfg.maxTest)
  | remaining + 1, testCount, s, log =>
    let size := trialSize cfg (testCount : ℤ)
    match generate s size with
    | none => none
    | some (v, s') =>
      if (runTest stringify test v).isSuccess then
        checkFrom generate shrink stringify test cfg fuel remaining
          (testCount + 1) s' (v :: log)
      else
        (findLocalMinFail (runTest stringify test) shrink cfg.seed
            ((testCount : ℤ) + 1) v fuel v v 0).map
          (fun tr => ((v :: log).reverse, tr))

/-- check: run maxTest trials from a fresh Random seeded with the
configured seed, returning the trial log and the terminal report. -/
def check {α ε : Type} (generate : RandomState → ℤ → Option (α × RandomState))
    (shrink : α → List α) (stringify : α → String)
    (test : α → TestResponse ε) (cfg : Config) (fuel : ℕ) :
    Option (List α × TestResult α ε) :=
  checkFrom generate shrink stringify test cfg fuel cfg.maxTest.toNat 0
    (Random.mk cfg.seed) []

/-- The scenario predicate of the recorded run: throw iff 10 < x
(x => { if (10 < x) { throw new Error("err") } }). -/
def gt10Test (x : ℤ) : TestResponse String :=
  if 10 < x then .throws "err" else .returnsOther

/-- The int32 generate capability handed to check, via the integer twin. -/
def int32Gen (s : RandomState) (size : ℤ) : Option (ℤ × RandomState) :=
  some (int32GenerateInt s size)

/-- The configuration the claim describes: seed 1873066016, maxTest 20,
sizes 1..100. -/
def cfgClaim : Config := ⟨1873066016, 20, 1, 100⟩

/-- The configuration of the repository's recorded test run: the same
seed with the default maxTest = 100. -/
def cfgRecorded : Config := ⟨1873066016, 100, 1, 100⟩

/-- The payload value of a range result, when it did not raise. -/
def exceptValue (e : Except String (ℚ × RandomState)) : Option ℚ :=
  match e with
  | .ok p => some p.1
  | .error _ => none

/-! ## Theorems -/

/-- JavaScript truncation of an integer fraction is Int.tdiv. -/
theorem ratTrunc_intCast_div (a : ℤ) (d : ℕ) (hd : 0 < d) :
    ratTrunc ((a : ℚ) / ((d : ℕ) : ℚ)) = Int.tdiv a d := by
  have hd0 : (0 : ℚ) < ((d : ℕ) : ℚ) := by exact_mod_cast hd
  rcases le_or_lt 0 a with ha | ha
  · have hq : (0 : ℚ) ≤ (a : ℚ) / ((d : ℕ) : ℚ) :=
      div_nonneg (by exact_mod_cast ha) hd0.le
    rw [ratTrunc, if_pos hq, Rat.floor_intCast_div_natCast,
      Int.tdiv_eq_ediv ha (by exact_mod_cast hd.le)]
  · have hq : (a : ℚ) / ((d : ℕ) : ℚ) < 0 :=
      div_neg_of_neg_of_pos (by exact_mod_cast ha) hd0
    rw [ratTrunc, if_neg (not_le.mpr hq)]
    have h1 : (a : ℚ) / ((d : ℕ) : ℚ) = -((-a : ℤ) : ℚ) / ((d : ℕ) : ℚ) := by
      push_cast; ring
    have h2 : Int.tdiv a d = -Int.tdiv (-a) d := by
      rw [← Int.neg_tdiv, neg_neg]
    rw [h1, neg_div, Int.ceil_neg, Rat.floor_intCast_div_natCast, h2,
      Int.tdiv_eq_ediv (by omega) (by exact_mod_cast hd.le)]

/-- The integer twin of Arbitrary.int32.generate agrees with the
source-shaped definition on the nonnegative sizes the engine uses. -/
theorem int32Generate_eq_int (s : RandomState) (size : ℤ) (h : 0 ≤ size) :
    int32Generate s size = .ok (int32GenerateInt s size) := by
  have hlt : ¬ ((size : ℚ) < -(size : ℚ)) := by
    have : (0 : ℚ) ≤ (size : ℚ) := by exact_mod_cast h
    linarith
  have hmin : min (-(size : ℚ)) (size : ℚ) = -(size : ℚ) := by
    apply min_eq_left; have : (0 : ℚ) ≤ (size : ℚ) := by exact_mod_cast h
    linarith
  have hmax : max (-(size : ℚ)) (size : ℚ) = (size : ℚ) := by
    apply max_eq_right; have : (0 : ℚ) ≤ (size : ℚ) := by exact_mod_cast h
    linarith
  have harith : ∀ u : ℕ, -(size : ℚ) + ((u : ℕ) : ℚ) / ((uint32Max : ℕ) : ℚ) *
      ((size : ℚ) - -(size : ℚ)) =
      (((-size * (uint32Max : ℤ) + (u : ℤ) * (2 * size)) : ℤ) : ℚ) /
        ((uint32Max : ℕ) : ℚ) := by
    intro u
    have hM : ((uint32Max : ℕ) : ℚ) ≠ 0 := by norm_num [uint32Max]
    have h2s : (size : ℚ) - -(size : ℚ) = 2 * (size : ℚ) := by ring
    rw [h2s, div_mul_eq_mul_div, eq_div_iff hM, add_mul,
      div_mul_cancel₀ _ hM]
    push_cast
    ring
  unfold int32Generate Random.range
  rw [if_neg hlt]
  unfold int32GenerateInt
  rcases hu : nextUInt32 s with ⟨u, s'⟩
  simp only [Random.next, hu, Except.map, jsToInt32, hmin, hmax]
  rw [harith u, ratTrunc_intCast_div _ _ (by norm_num [uint32Max])]

/-- The integer twin of currentSize agrees with the source-shaped
definition whenever maxTest is positive. -/
theorem currentSize_eq_int (a b mt i : ℤ) (h : 0 < mt) :
    currentSizeQ a b mt i = currentSizeInt a b mt i := by
  unfold currentSizeQ currentSizeInt jsToInt32
  congr 1
  have hmt : ((mt.toNat : ℕ) : ℚ) = (mt : ℚ) := by
    exact_mod_cast congrArg (Int.cast : ℤ → ℚ) (Int.toNat_of_nonneg h.le)
  have harith : (a : ℚ) + ((b : ℚ) - (a : ℚ)) * (((i : ℚ) + 1) / (mt : ℚ)) =
      (((a * mt + (b - a) * (i + 1)) : ℤ) : ℚ) / ((mt.toNat : ℕ) : ℚ) := by
    rw [hmt]
    have hm : (mt : ℚ) ≠ 0 := by
      have : (0 : ℚ) < (mt : ℚ) := by exact_mod_cast h
      linarith
    rw [← mul_div_assoc, eq_div_iff hm, add_mul, div_mul_cancel₀ _ hm]
    push_cast
    ring
  rw [harith, ratTrunc_intCast_div _ _ (by omega),
    Int.toNat_of_nonneg h.le]

/-- Validation: the embedding reproduces, word for word, the 20-draw
xorshift sequence for seed 88675123 recorded in test/qcheck.test.ts. -/
theorem nextN_matches_recorded_vector :
    nextN (Random.mk 88675123) 20 =
      [3701687786, 458299110, 2500872618, 3633119408, 516391518,
       2377269574, 2599949379, 717229868, 137866584, 395339113,
       1301295572, 1728310821, 3538670320, 1187274473, 2316753268,
       4061953237, 2129415220, 448488982, 643481932, 934407046] := by
  decide

/-- Validation: on the repository's recorded configuration (seed
1873066016 with the default maxTest = 100, sizes 1..100) the embedded
check reproduces the full recorded trace of test/qcheck.test.ts: the
twenty drawn values, the failure at trial index 19 with value 18, and the
final report with testCount 20, shrinkCount 7, original 18, shrunk 11. -/
theorem check_matches_recorded_trace :
    check int32Gen int32Shrink (fun x => toString x) gt10Test cfgRecorded 100
      = some ([0, 0, 2, 1, 0, 4, 6, 5, 2, 0, -7, 0, -11, -4, 2, -14, -15,
          7, -11, 18],
        .failure 1873066016 20 7 18 11) := by
  decide

/-- C1, counterexample.  Under the configuration the claim states (seed
1873066016, maxTest 20, startSize 1, endSize 100, predicate failing
exactly when x > 10) the run draws [2, -1, 14]: trials 0 and 1 succeed and
the first failing draw is at trial index 2 with value 14 (not 19 with 18),
and the final report is Failure with testCount 3, shrinkCount 3 (not 8),
originalFail 14 and minFail 11.  The claim's 19/18/7-shrink figures belong
to the repository's recorded run with the default maxTest = 100 (see
check_matches_recorded_trace), not to maxTest = 20. -/
theorem qcheck_C1_counterexample :
    check int32Gen int32Shrink (fun x => toString x) gt10Test cfgClaim 100
      = some ([2, -1, 14], .failure 1873066016 3 3 14 11)
    ∧ (3 : ℕ) ≠ 8 ∧ (2 : ℕ) ≠ 19 ∧ (14 : ℤ) ≠ 18 := by
  decide

/-- C1, amended.  For the bounded-integer generator run through check with
seed 1873066016, maxTest 20, startSize 1, endSize 100 and a predicate that
fails exactly when x > 10: trials 0 and 1 (values 2 and -1) succeed, the
first failing draw occurs at trial index 2 with value 14, and the
shrink-search terminates with minFail = 11 after exactly 3 recorded shrink
failures (the final report's shrinkCount equals 3). -/
theorem qcheck_C1_amended :
    check int32Gen int32Shrink (fun x => toString x) gt10Test cfgClaim 100
      = some ([2, -1, 14], .failure 1873066016 3 3 14 11)
    ∧ ¬ 10 < (2 : ℤ) ∧ ¬ 10 < (-1 : ℤ) ∧ 10 < (14 : ℤ)
    ∧ 10 < (11 : ℤ) := by
  decide

/-- C2, counterexample.  The run under cfgClaim has its first failing
evaluation caused by the predicate throwing — runTest catches the error
into an Exception Result — yet the terminal report is the plain Failure
shape, which carries no error field at all: the Exception-shaped report
(TestResult.exceptionFailure, the source's TestFailureWithException) is
never constructed, so the error payload is dropped from the final
report. -/
theorem qcheck_C2_counterexample :
    runTest (fun x => toString x) gt10Test (14 : ℤ)
      = RunResult.exception "err" "14"
    ∧ check int32Gen int32Shrink (fun x => toString x) gt10Test cfgClaim 100
      = some ([2, -1, 14], .failure 1873066016 3 3 14 11)
    ∧ (TestResult.failure (α := ℤ) (ε := String)
        1873066016 3 3 14 11).isExceptionShaped = false := by
  decide

/-- Every report findLocalMinFail produces is the plain Failure shape
(the source always calls TestResult.testFailure). -/
theorem findLocalMinFail_shape {α ε : Type} (runT : α → RunResult ε)
    (shrink : α → List α) (seed testCount : ℤ) (originalFail : α) :
    ∀ (fuel : ℕ) (a b : α) (c : ℕ) (tr : TestResult α ε),
      findLocalMinFail runT shrink seed testCount originalFail fuel a b c
        = some tr →
      tr.isExceptionShaped = false := by
  intro fuel
  induction fuel with
  | zero => intro a b c tr h; simp [findLocalMinFail] at h
  | succ n ih =>
    intro a b c tr h
    rw [findLocalMinFail] at h
    rcases hp : shrinkPass runT (shrink a) b 0 c with ⟨mf, sc⟩ | ⟨mf, sc⟩
    · rw [hp] at h
      cases h
      rfl
    · rw [hp] at h
      exact ih mf mf sc tr h

/-- Every report the trial loop produces is either the Success shape or
the plain Failure shape, never the Exception shape. -/
theorem checkFrom_shape {α ε : Type}
    (generate : RandomState → ℤ → Option (α × RandomState))
    (shrink : α → List α) (stringify : α → String)
    (test : α → TestResponse ε) (cfg : Config) (fuel : ℕ) :
    ∀ (remaining testCount : ℕ) (s : RandomState) (log : List α)
      (out : List α × TestResult α ε),
      checkFrom generate shrink stringify test cfg fuel remaining testCount
          s log = some out →
      out.2.isExceptionShaped = false := by
  intro remaining
  induction remaining with
  | zero =>
    intro testCount s log out h
    rw [checkFrom] at h
    cases h
    rfl
  | succ n ih =>
    intro testCount s log out h
    rw [checkFrom] at h
    rcases hg : generate s (trialSize cfg (testCount : ℤ)) with _ | ⟨v, s'⟩
    · rw [hg] at h; simp at h
    · rw [hg] at h
      dsimp only at h
      by_cases hs : (runTest stringify test v).isSuccess
      · rw [if_pos hs] at h
        exact ih (testCount + 1) s' (v :: log) out h
      · rw [if_neg hs] at h
        rcases hf : findLocalMinFail (runTest stringify test) shrink cfg.seed
            ((testCount : ℤ) + 1) v fuel v v 0 with _ | tr
        · rw [hf] at h; simp at h
        · rw [hf] at h
          cases h
          exact findLocalMinFail_shape _ _ _ _ _ fuel v v 0 tr hf

/-- C2, amended.  When the predicate throws, runTest captures the error
payload in the per-evaluation Exception Result (it is not dropped there);
but every terminal report of a run is the Success or plain Failure shape:
the Exception-shaped report that would carry the error is never produced,
so the error payload of the first failing evaluation is not attached to
the run's terminal report. -/
theorem qcheck_C2_amended {α ε : Type} (stringify : α → String)
    (test : α → TestResponse ε)
    (generate : RandomState → ℤ → Option (α × RandomState))
    (shrink : α → List α) (cfg : Config) (fuel : ℕ) :
    (∀ (v : α) (e : ε), test v = .throws e →
      runTest stringify test v = .exception e (stringify v))
    ∧ (∀ (log : List α) (tr : TestResult α ε),
        check generate shrink stringify test cfg fuel = some (log, tr) →
        tr.isExceptionShaped = false) := by
  constructor
  · intro v e he
    rw [runTest, he]
  · intro log tr h
    exact checkFrom_shape generate shrink stringify test cfg fuel _ _ _ _
      (log, tr) h

/-- C2, witness: the amended theorem applied to the concrete cfgClaim run,
whose first failing evaluation throws. -/
theorem qcheck_C2_witness :
    runTest (fun x => toString x) gt10Test (14 : ℤ)
      = RunResult.exception "err" "14"
    ∧ (TestResult.failure (α := ℤ) (ε := String)
        1873066016 3 3 14 11).isExceptionShaped = false := by
  refine ⟨(qcheck_C2_amended (fun x => toString x) gt10Test int32Gen
      int32Shrink cfgClaim 100).1 14 "err" (by decide), ?_⟩
  exact (qcheck_C2_amended (fun x => toString x) gt10Test int32Gen
      int32Shrink cfgClaim 100).2 [2, -1, 14] _ (by decide)

/-- The prefix length of the minLength-0 halving loop on a one-element
array is 0 at every pass. -/
theorem arrayShrinkIdx_singleton (v : ℤ) (k : ℕ) :
    arrayShrinkIdx [v] k = 0 := by
  induction k with
  | zero => rw [arrayShrinkIdx]; simp
  | succ n ih => rw [arrayShrinkIdx, ih]

/-- C3.  The claim (and the comment documenting the shrink sequence in the
source, which ends at the empty array) says every shrink sequence is
finite; but for the array combinator with minimum length 0 the halving
loop never exits on a non-empty input: on [0] the prefix length is 0 at
every pass (0 / 2 = 0 and minLength 0 <= 0), so the generator yields the
empty-array candidate forever — pass k exists for every k, i.e. the
candidate sequence never exhausts and is infinite. -/
theorem qcheck_C3_theorem :
    ∀ k : ℕ, arrayShrinkSeq shrinkInteger 0 [(0 : ℤ)] k = some [[]] := by
  intro k
  rw [arrayShrinkSeq, if_neg (by simp), arrayShrinkIdx_singleton,
    if_pos (Nat.zero_le 0)]
  rfl

/-- C5.  Two independently constructed Random sources given the same
explicit seed — regardless of the ambient construction times — produce
identical draw sequences of nextUInt32 for every draw count: the state is
a pure function of the seed and each draw a pure function of the state. -/
theorem qcheck_C5_theorem (seed now1 now2 : ℤ) (n : ℕ) :
    nextN (Random.mkDefault (some seed) now1) n
      = nextN (Random.mkDefault (some seed) now2) n := rfl

/-- Random.next projected through the pattern-matching let. -/
theorem Random.next_eq (s : RandomState) :
    Random.next s =
      (((nextUInt32 s).1 : ℚ) / ((uint32Max : ℕ) : ℚ), (nextUInt32 s).2) := by
  rw [Random.next]

/-- A well-formed state draws a word below 2^32. -/
theorem nextUInt32_lt (s : RandomState) (hs : s.Wf) :
    (nextUInt32 s).1 < m32 := by
  obtain ⟨hx, _, _, hw⟩ := hs
  have h32 : m32 = 2 ^ 32 := by norm_num [m32]
  rw [h32] at hx hw ⊢
  unfold nextUInt32
  have hshr : ∀ a k : ℕ, a < 2 ^ 32 → a >>> k < 2 ^ 32 := by
    intro a k ha
    rw [Nat.shiftRight_eq_div_pow]
    exact lt_of_le_of_lt (Nat.div_le_self a (2 ^ k)) ha
  have hmask : mask32 (s.x <<< 11) < 2 ^ 32 := by
    rw [← h32]; exact Nat.mod_lt _ (by norm_num [m32])
  have ht : Nat.xor s.x (mask32 (s.x <<< 11)) < 2 ^ 32 :=
    Nat.xor_lt_two_pow hx hmask
  exact Nat.xor_lt_two_pow
    (Nat.xor_lt_two_pow hw (hshr _ _ hw))
    (Nat.xor_lt_two_pow ht (hshr _ _ ht))

/-- The unit draw of a well-formed state lies in [0, 1]. -/
theorem next_mem_unit (s : RandomState) (hs : s.Wf) :
    0 ≤ (Random.next s).1 ∧ (Random.next s).1 ≤ 1 := by
  rw [Random.next_eq]
  have hd : (nextUInt32 s).1 ≤ uint32Max := by
    have := nextUInt32_lt s hs
    unfold m32 at this
    unfold uint32Max
    omega
  constructor
  · exact div_nonneg (Nat.cast_nonneg _) (Nat.cast_nonneg _)
  · rw [div_le_one (by norm_num [uint32Max])]
    exact_mod_cast hd

/-- C6, counterexample.  Random.range does not raise whenever min < max
fails: with equal bounds (where min < max is false and the claimed
interval [min, max) is empty) it succeeds and returns min; and the bounds
may not be passed in reverse order, because range(5, 3) raises instead of
normalizing — the internal Math.min/Math.max normalization is dead code
behind the max < min guard. -/
theorem qcheck_C6_counterexample :
    exceptValue (Random.range (Random.mk 0) 3 3) = some 3
    ∧ Random.range (Random.mk 0) 5 3 = .error "min < max" := by
  constructor
  · rw [Random.range, if_neg (by norm_num), Random.next_eq]
    simp [exceptValue]
  · rw [Random.range, if_pos (by norm_num)]

/-- C6, amended.  Random.range raises exactly when max < min (so equal
bounds succeed and reversed bounds raise rather than being normalized);
when min <= max it returns min + next() * (max - min), which lies in the
closed interval [min, max] — the right endpoint is attainable since
next() can equal 1. -/
theorem qcheck_C6_amended (s : RandomState) (hs : s.Wf) (mn mx : ℚ) :
    (mx < mn → Random.range s mn mx = .error "min < max")
    ∧ (mn ≤ mx → ∃ u s', Random.range s mn mx = .ok (mn + u * (mx - mn), s')
        ∧ 0 ≤ u ∧ u ≤ 1
        ∧ mn ≤ mn + u * (mx - mn) ∧ mn + u * (mx - mn) ≤ mx) := by
  constructor
  · intro hlt
    rw [Random.range, if_pos hlt]
  · intro hle
    refine ⟨(Random.next s).1, (Random.next s).2, ?_, ?_, ?_, ?_, ?_⟩
    · rw [Random.range, if_neg (not_lt.mpr hle), min_eq_left hle,
        max_eq_right hle, Random.next_eq]
    · exact (next_mem_unit s hs).1
    · exact (next_mem_unit s hs).2
    · have := mul_nonneg (next_mem_unit s hs).1 (sub_nonneg.mpr hle)
      linarith
    · have := mul_le_of_le_one_left (sub_nonneg.mpr hle)
        (next_mem_unit s hs).2
      linarith

/-- C6, witness: the amended theorem applied to a concrete well-formed
state and the bounds 1 and 3. -/
theorem qcheck_C6_witness :
    ∃ u s', Random.range (Random.mk 0) 1 3 = .ok (1 + u * (3 - 1), s')
      ∧ 0 ≤ u ∧ u ≤ 1
      ∧ 1 ≤ 1 + u * (3 - 1) ∧ 1 + u * (3 - 1) ≤ 3 :=
  (qcheck_C6_amended (Random.mk 0) (by decide) 1 3).2 (by norm_num)

/-- C7, counterexample.  From the constructed source Random(638954829)
the first 32-bit draw is 4294967295 = 2^32 - 1, and the unit draw
Random.next() equals 1: it is not less than 1, and it differs from the
draw divided by 2^32 — the source divides by UInt32.Max = 2^32 - 1, not
by 2^32. -/
theorem qcheck_C7_counterexample :
    (nextUInt32 (Random.mk 638954829)).1 = 4294967295
    ∧ (Random.next (Random.mk 638954829)).1 = 1
    ∧ ¬ (Random.next (Random.mk 638954829)).1 < 1
    ∧ (Random.next (Random.mk 638954829)).1
        ≠ ((nextUInt32 (Random.mk 638954829)).1 : ℚ) / 4294967296 := by
  have hu : (nextUInt32 (Random.mk 638954829)).1 = 4294967295 := by decide
  refine ⟨hu, ?_, ?_, ?_⟩ <;> rw [Random.next_eq, hu] <;> norm_num [uint32Max]

/-- C7, amended.  For every well-formed RNG state the unit draw equals the
next 32-bit draw divided by UInt32.Max = 2^32 - 1 (not 2^32) and lies in
the closed interval [0, 1]; it equals 1 exactly when the draw is
2^32 - 1. -/
theorem qcheck_C7_amended (s : RandomState) (hs : s.Wf) :
    (Random.next s).1 = ((nextUInt32 s).1 : ℚ) / ((uint32Max : ℕ) : ℚ)
    ∧ 0 ≤ (Random.next s).1 ∧ (Random.next s).1 ≤ 1
    ∧ ((Random.next s).1 = 1 ↔ (nextUInt32 s).1 = uint32Max) := by
  refine ⟨by rw [Random.next_eq], (next_mem_unit s hs).1,
    (next_mem_unit s hs).2, ?_⟩
  rw [Random.next_eq]
  rw [div_eq_one_iff_eq (by norm_num [uint32Max])]
  exact_mod_cast Iff.rfl

/-- C7, witness: the amended theorem applied to the concrete state of
Random(638954829), whose first draw attains UInt32.Max. -/
theorem qcheck_C7_witness :
    (Random.next (Random.mk 638954829)).1
        = ((nextUInt32 (Random.mk 638954829)).1 : ℚ) / ((uint32Max : ℕ) : ℚ)
    ∧ 0 ≤ (Random.next (Random.mk 638954829)).1
    ∧ (Random.next (Random.mk 638954829)).1 ≤ 1
    ∧ ((Random.next (Random.mk 638954829)).1 = 1
        ↔ (nextUInt32 (Random.mk 638954829)).1 = uint32Max) :=
  qcheck_C7_amended (Random.mk 638954829) (by decide)

/-- C8.  The shrink of the code point 48 (the digit 0) is
[47, 24, 32, 10, 97]: the source's category function never returns the
declared Category.AsciiNumber value (category 48 is 3, the plain-ASCII
bucket, not 2), so the candidate 47 (the character /) is yielded although
under the six-way category order documented in the source comment and the
spec it is strictly less simple than 48 (other-ASCII, bucket 3, versus
digit, bucket 2).  Likewise the Latin-1 bucket 4 is never returned
(category 200 is 5). -/
theorem qcheck_C8_theorem :
    codePointShrink 48 = [47, 24, 32, 10, 97]
    ∧ (47 : ℤ) ∈ codePointShrink 48
    ∧ category 48 = 3 ∧ specCategory 48 = 2
    ∧ specCategory 48 < specCategory 47
    ∧ category 200 = 5 ∧ specCategory 200 = 4 := by
  decide

/-- C4.  For the sum combinator built from the constants "a" and 42:
shrink("a") and shrink(42) are both empty as claimed; but generate
crashes instead of picking a branch — the branch array is indexed at the
unfloored fractional position next() * 2 (the source omits the | 0 floor
the one-of generator is specified with), which is undefined, and the [0]
member access on undefined throws a TypeError.  Concretely, with the
Random seeded 88675123 (the seed of the repository's own RNG test vector)
the first draw is 3701687786, the index is 7403375572 / 4294967295, not
an integer, and generate yields no value — so drawing samples cannot
succeed, contradicting the claim and the repository's own sampling test. -/
theorem qcheck_C4_theorem :
    sumShrink sumAOr42 (.str "a") = []
    ∧ sumShrink sumAOr42 (.num 42) = []
    ∧ sumGenerate sumAOr42 (Random.mk 88675123) 0 = none
    ∧ ((Random.next (Random.mk 88675123)).1
        * ((sumAOr42.length : ℕ) : ℚ)).den ≠ 1 := by
  have hu : (nextUInt32 (Random.mk 88675123)).1 = 3701687786 := by decide
  have hlen : sumAOr42.length = 2 := by rfl
  have harg : ((3701687786 : ℕ) : ℚ) / ((uint32Max : ℕ) : ℚ)
      * ((sumAOr42.length : ℕ) : ℚ) = Rat.divInt 7403375572 4294967295 := by
    rw [hlen, Rat.divInt_eq_div]
    norm_num [uint32Max]
  refine ⟨by decide, by decide, ?_, ?_⟩
  · rw [sumGenerate, Random.next_eq]
    dsimp only
    rw [hu, harg]
    decide
  · rw [Random.next_eq]
    dsimp only
    rw [hu, harg]
    decide

/-- C9.  For the record combinator: the candidate sequence is, field by
field in sorted key order, the record with only that field replaced (a
single-key Object.assign is Function.update); every candidate agrees with
the original on all other fields and its changed field holds one of that
field's own shrinks, so when the field shrinks are non-reflexive the
candidate differs from the original in exactly that one field. -/
theorem qcheck_C9_theorem {ι : Type} {β : ι → Type} [LinearOrder ι]
    [DecidableEq ι] (shr : (k : ι) → β k → List (β k)) (ks : List ι)
    (r : (k : ι) → β k)
    (hne : ∀ (k : ι) (x : β k), x ∈ shr k (r k) → x ≠ r k) :
    (∀ c ∈ interfaceShrink shr (interfaceKeys ks) r,
      ∃ k, k ∈ interfaceKeys ks ∧ c k ∈ shr k (r k) ∧ c k ≠ r k ∧
        ∀ k', k' ≠ k → c k' = r k')
    ∧ List.Sorted (· ≤ ·) (interfaceKeys ks)
    ∧ interfaceShrink shr (interfaceKeys ks) r =
      (interfaceKeys ks).flatMap
        (fun k => (shr k (r k)).map (fun x => Function.update r k x)) := by
  refine ⟨?_, List.sorted_insertionSort _ _, rfl⟩
  intro c hc
  rw [interfaceShrink, List.mem_flatMap] at hc
  obtain ⟨k, hk, hm⟩ := hc
  rw [List.mem_map] at hm
  obtain ⟨x, hx, rfl⟩ := hm
  refine ⟨k, hk, ?_, ?_, ?_⟩
  · rw [Function.update_same]
    exact hx
  · rw [Function.update_same]
    exact hne k x hx
  · intro k' hk'
    exact Function.update_noteq hk' x r

/-- C9, witness: the theorem applied to the two-field record with keys 1
and 0 (sorted to [0, 1]), shrinkInteger on both fields and the constant
record with value 5 everywhere. -/
theorem qcheck_C9_witness :
    (∀ c ∈ interfaceShrink (fun (_ : ℕ) => shrinkInteger)
        (interfaceKeys [1, 0]) (fun _ => (5 : ℤ)),
      ∃ k, k ∈ interfaceKeys [1, 0] ∧ c k ∈ shrinkInteger 5 ∧ c k ≠ 5 ∧
        ∀ k', k' ≠ k → c k' = 5)
    ∧ List.Sorted (· ≤ ·) (interfaceKeys [1, 0])
    ∧ interfaceShrink (fun (_ : ℕ) => shrinkInteger)
        (interfaceKeys [1, 0]) (fun _ => (5 : ℤ)) =
      (interfaceKeys [1, 0]).flatMap
        (fun k => (shrinkInteger 5).map
          (fun x => Function.update (fun _ => (5 : ℤ)) k x)) :=
  qcheck_C9_theorem (fun (_ : ℕ) => shrinkInteger) [1, 0] (fun _ => (5 : ℤ))
    (by
      intro k x hx
      simp only at hx ⊢
      rw [show shrinkInteger 5 = [4, 2, 0] from by decide] at hx
      simp at hx
      omega)

/-- JavaScript n | 0 is the identity on integers that already fit in
nonnegative signed 32-bit range. -/
theorem wrap32_eq_self (n : ℤ) (h0 : 0 ≤ n) (h1 : n < 2147483648) :
    wrap32 n = n := by
  unfold wrap32
  have hm32 : (m32 : ℤ) = 4294967296 := by norm_num [m32]
  have hmod : n % (m32 : ℤ) = n := by
    rw [hm32]
    exact Int.emod_eq_of_lt h0 (by omega)
  simp only [hmod]
  rw [if_pos h1]

/-- C10.  The per-trial size check hands to generate is computed by
currentSize over the clamped bounds minSize = max(1, startSize) and
maxSize = max(endSize, minSize), and (when maxTest is positive, the trial
index is within the run, and the clamped upper bound fits in the int32
range that the | 0 truncation preserves) that size lies between the
clamped bounds: generate never sees a size derived from a start below 1
or an end below the clamped start. -/
theorem qcheck_C10_theorem (cfg : Config) (i : ℤ) (h1 : 0 < cfg.maxTest)
    (h2 : 0 ≤ i) (h3 : i < cfg.maxTest)
    (h4 : checkMaxSize cfg < 2147483648) :
    trialSize cfg i = currentSizeQ (max 1 cfg.startSize)
        (max cfg.endSize (max 1 cfg.startSize)) cfg.maxTest i
    ∧ 1 ≤ checkMinSize cfg
    ∧ checkMinSize cfg ≤ trialSize cfg i
    ∧ trialSize cfg i ≤ checkMaxSize cfg := by
  have hm1 : (1 : ℤ) ≤ checkMinSize cfg := le_max_left _ _
  have hmM : checkMinSize cfg ≤ checkMaxSize cfg := le_max_right _ _
  have heq : trialSize cfg i = currentSizeQ (checkMinSize cfg)
      (checkMaxSize cfg) cfg.maxTest i :=
    (currentSize_eq_int _ _ _ _ h1).symm
  set m := checkMinSize cfg with hm
  set M := checkMaxSize cfg with hM
  have hfrac0 : (0 : ℚ) ≤ ((i : ℚ) + 1) / (cfg.maxTest : ℚ) := by
    apply div_nonneg
    · linarith [(show (0 : ℚ) ≤ (i : ℚ) from by exact_mod_cast h2)]
    · exact_mod_cast h1.le
  have hfrac1 : ((i : ℚ) + 1) / (cfg.maxTest : ℚ) ≤ 1 := by
    rw [div_le_one (by exact_mod_cast h1)]
    have : i + 1 ≤ cfg.maxTest := h3
    exact_mod_cast this
  have hsub : (0 : ℚ) ≤ (M : ℚ) - (m : ℚ) := by
    rw [sub_nonneg]; exact_mod_cast hmM
  have hq_lb : (m : ℚ) ≤ (m : ℚ) + ((M : ℚ) - (m : ℚ)) *
      (((i : ℚ) + 1) / (cfg.maxTest : ℚ)) := by
    have := mul_nonneg hsub hfrac0
    linarith
  have hq_ub : (m : ℚ) + ((M : ℚ) - (m : ℚ)) *
      (((i : ℚ) + 1) / (cfg.maxTest : ℚ)) ≤ (M : ℚ) := by
    have := mul_le_of_le_one_right hsub hfrac1
    linarith
  have hq0 : (0 : ℚ) ≤ (m : ℚ) + ((M : ℚ) - (m : ℚ)) *
      (((i : ℚ) + 1) / (cfg.maxTest : ℚ)) := by
    have : (1 : ℚ) ≤ (m : ℚ) := by exact_mod_cast hm1
    linarith
  have hfloor_lb : m ≤ ⌊(m : ℚ) + ((M : ℚ) - (m : ℚ)) *
      (((i : ℚ) + 1) / (cfg.maxTest : ℚ))⌋ := Int.le_floor.mpr hq_lb
  have hfloor_ub : ⌊(m : ℚ) + ((M : ℚ) - (m : ℚ)) *
      (((i : ℚ) + 1) / (cfg.maxTest : ℚ))⌋ ≤ M := by
    have := Int.floor_le_floor hq_ub
    rwa [Int.floor_intCast] at this
  have hsize : currentSizeQ m M cfg.maxTest i = ⌊(m : ℚ) + ((M : ℚ) - (m : ℚ)) *
      (((i : ℚ) + 1) / (cfg.maxTest : ℚ))⌋ := by
    rw [currentSizeQ, jsToInt32, ratTrunc, if_pos hq0]
    exact wrap32_eq_self _ (by omega) (by omega)
  refine ⟨heq, hm1, ?_, ?_⟩
  · rw [heq, hsize]; exact hfloor_lb
  · rw [heq, hsize]; exact hfloor_ub

/-- C10, witness: the theorem applied to a configuration with
startSize = -5 below 1 and endSize = 3 below nothing, at trial index 7
of 20. -/
theorem qcheck_C10_witness :
    trialSize ⟨0, 20, -5, 3⟩ 7 = currentSizeQ (max 1 (-5))
        (max 3 (max 1 (-5))) 20 7
    ∧ 1 ≤ checkMinSize ⟨0, 20, -5, 3⟩
    ∧ checkMinSize ⟨0, 20, -5, 3⟩ ≤ trialSize ⟨0, 20, -5, 3⟩ 7
    ∧ trialSize ⟨0, 20, -5, 3⟩ 7 ≤ checkMaxSize ⟨0, 20, -5, 3⟩ :=
  qcheck_C10_theorem ⟨0, 20, -5, 3⟩ 7 (by norm_num) (by norm_num)
    (by norm_num) (by norm_num [checkMaxSize, checkMinSize])

end QCheck
